import Mathlib

/-!
Shallow embedding of the paper trading execution and risk engine from
`server/paper_trading_engine.py` (data contracts from `server/schemas.py`).

Modelling conventions:
* Python `float` dollar arithmetic is modelled over `ℚ`; Python's `round(x, 2)`
  (round half to even) is modelled by `round2` below.
* Python `dict`s (`orders`, `positions`, `current_prices`) are modelled as
  association lists with first-occurrence lookup and in-place update
  (`alookup` / `aset`), which mirrors dict semantics with unique keys and
  insertion order.
* `uuid.uuid4().hex[:16]` order/fill ids are modelled by a deterministic
  counter `next_id : ℕ` threaded through the engine; no claim depends on the
  textual content of an id.
* Risk-violation messages are Python f-strings carrying formatted numbers; they
  are modelled by the inductive type `RiskViolation` whose constructors carry
  exactly the data interpolated into the corresponding message, and the joined
  error string returned by `submit_order` is modelled by the violation list it
  is built from.
-/

namespace MarketSim

/-! ## Association lists (Python dict model) -/

/-- Lookup the value at the first entry with the given key. -/
def alookup {κ α : Type} [DecidableEq κ] : List (κ × α) → κ → Option α
  | [], _ => none
  | p :: rest, k => if p.1 = k then some p.2 else alookup rest k

/-- Update the first entry with the given key in place, else append at the end
(Python dict assignment). -/
def aset {κ α : Type} [DecidableEq κ] : List (κ × α) → κ → α → List (κ × α)
  | [], k, v => [(k, v)]
  | p :: rest, k, v => if p.1 = k then (k, v) :: rest else p :: aset rest k v

theorem mem_aset {κ α : Type} [DecidableEq κ] {m : List (κ × α)} {k : κ} {v : α}
    {q : κ × α} (hq : q ∈ aset m k v) : q.2 = v ∨ q ∈ m := by
  induction m with
  | nil =>
    simp only [aset, List.mem_singleton] at hq
    exact Or.inl (by simp [hq])
  | cons p rest ih =>
    simp only [aset] at hq
    by_cases h : p.1 = k
    · simp only [if_pos h, List.mem_cons] at hq
      rcases hq with h1 | h2
      · exact Or.inl (by simp [h1])
      · exact Or.inr (List.mem_cons_of_mem _ h2)
    · simp only [if_neg h, List.mem_cons] at hq
      rcases hq with h1 | h2
      · exact Or.inr (h1 ▸ List.mem_cons_self _ _)
      · rcases ih h2 with h3 | h4
        · exact Or.inl h3
        · exact Or.inr (List.mem_cons_of_mem _ h4)

theorem alookup_aset_self {κ α : Type} [DecidableEq κ] (m : List (κ × α)) (k : κ) (v : α) :
    alookup (aset m k v) k = some v := by
  induction m with
  | nil => simp [aset, alookup]
  | cons p rest ih =>
    by_cases h : p.1 = k
    · simp [aset, alookup, h]
    · simp [aset, alookup, h, ih]

theorem alookup_aset_ne {κ α : Type} [DecidableEq κ] (m : List (κ × α)) (k k' : κ) (v : α)
    (hne : k' ≠ k) : alookup (aset m k v) k' = alookup m k' := by
  induction m with
  | nil =>
    simp only [aset, alookup]
    rw [if_neg (fun hk : k = k' => hne hk.symm)]
  | cons p rest ih =>
    by_cases h : p.1 = k
    · simp only [aset, if_pos h, alookup]
      rw [if_neg (fun hk : k = k' => hne hk.symm),
          if_neg (fun hk : p.1 = k' => hne (h ▸ hk : k = k').symm)]
    · simp only [aset, if_neg h, alookup]
      by_cases h2 : p.1 = k'
      · simp [h2]
      · simp [h2, ih]

theorem alookup_mem {κ α : Type} [DecidableEq κ] {m : List (κ × α)} {k : κ} {v : α}
    (h : alookup m k = some v) : (k, v) ∈ m := by
  induction m with
  | nil => simp [alookup] at h
  | cons p rest ih =>
    obtain ⟨a, b⟩ := p
    by_cases hk : a = k
    · have hb : alookup ((a, b) :: rest) k = some b := by simp [alookup, hk]
      rw [hb] at h
      injection h with hbv
      rw [← hk, ← hbv]
      exact List.mem_cons_self _ _
    · have hrest : alookup ((a, b) :: rest) k = alookup rest k := by simp [alookup, hk]
      rw [hrest] at h
      exact List.mem_cons_of_mem _ (ih h)

/-! ## Rounding (Python `round(x, 2)`: round half to even) -/

/-- Round a rational to the nearest integer, ties to even (Python `round`). -/
def roundHE (x : ℚ) : ℤ :=
  if x - ⌊x⌋ < 1/2 then ⌊x⌋
  else if 1/2 < x - ⌊x⌋ then ⌊x⌋ + 1
  else if ⌊x⌋ % 2 = 0 then ⌊x⌋ else ⌊x⌋ + 1

/-- Python `round(x, 2)`. -/
def round2 (x : ℚ) : ℚ := (roundHE (x * 100) : ℚ) / 100

theorem floor_le_roundHE (x : ℚ) : ⌊x⌋ ≤ roundHE x := by
  unfold roundHE
  split
  · omega
  · split
    · omega
    · split <;> omega

theorem roundHE_le_floor_add_one (x : ℚ) : roundHE x ≤ ⌊x⌋ + 1 := by
  unfold roundHE
  split
  · omega
  · split
    · omega
    · split <;> omega

theorem roundHE_intCast (n : ℤ) : roundHE (n : ℚ) = n := by
  unfold roundHE
  simp

theorem roundHE_mono {x y : ℚ} (h : x ≤ y) : roundHE x ≤ roundHE y := by
  rcases lt_or_eq_of_le (Int.floor_le_floor h) with hf | hf
  · calc roundHE x ≤ ⌊x⌋ + 1 := roundHE_le_floor_add_one x
      _ ≤ ⌊y⌋ := by omega
      _ ≤ roundHE y := floor_le_roundHE y
  · unfold roundHE
    rw [hf]
    have hfr : x - (⌊y⌋ : ℚ) ≤ y - (⌊y⌋ : ℚ) := by linarith
    by_cases h1 : x - (⌊y⌋ : ℚ) < 1/2
    · rw [if_pos h1]
      split
      · omega
      · split
        · omega
        · split <;> omega
    · rw [if_neg h1]
      have h1y : ¬ (y - (⌊y⌋ : ℚ) < 1/2) := fun hy => h1 (lt_of_le_of_lt hfr hy)
      rw [if_neg h1y]
      by_cases h2 : 1/2 < x - (⌊y⌋ : ℚ)
      · rw [if_pos h2, if_pos (lt_of_lt_of_le h2 hfr)]
      · rw [if_neg h2]
        by_cases h3 : 1/2 < y - (⌊y⌋ : ℚ)
        · rw [if_pos h3]
          split <;> omega
        · rw [if_neg h3]

theorem roundHE_ge_of_int_le {n : ℤ} {x : ℚ} (h : (n : ℚ) ≤ x) : n ≤ roundHE x := by
  have := roundHE_mono h
  rwa [roundHE_intCast] at this

theorem roundHE_le_of_le_int {n : ℤ} {x : ℚ} (h : x ≤ (n : ℚ)) : roundHE x ≤ n := by
  have := roundHE_mono h
  rwa [roundHE_intCast] at this

/-! ## Data model (schemas.py) -/

inductive OrderSide
  | buy
  | sell
  deriving DecidableEq, Repr

inductive OrderType
  | market
  | limit
  | stop
  | stopLimit
  deriving DecidableEq, Repr

inductive OrderStatus
  | new
  | working
  | partFilled
  | filled
  | canceled
  | rejected
  deriving DecidableEq, Repr

inductive TimeInForce
  | day
  | gtc
  | ioc
  | fok
  deriving DecidableEq, Repr

/-- OHLCV bar. `opn` models the Python field `open` (a Lean keyword). -/
structure Bar where
  ts : ℤ
  opn : ℚ
  high : ℚ
  low : ℚ
  close : ℚ
  volume : ℤ
  deriving DecidableEq, Repr

/-- Schema validation on `Bar` (pydantic: all prices > 0, volume ≥ 0, high ≥ low). -/
def Bar.Valid (b : Bar) : Prop :=
  0 < b.opn ∧ 0 < b.high ∧ 0 < b.low ∧ 0 < b.close ∧ 0 ≤ b.volume ∧ b.low ≤ b.high

/-- Order submission request (`OrderCreate`). -/
structure OrderCreate where
  symbol : String
  side : OrderSide
  type : OrderType
  qty : ℤ
  limit_price : Option ℚ
  stop_price : Option ℚ
  tif : TimeInForce
  deriving DecidableEq, Repr

/-- Schema validation on `OrderCreate` (pydantic: qty > 0, optional prices > 0). -/
def OrderCreate.Valid (r : OrderCreate) : Prop :=
  0 < r.qty ∧ (∀ p ∈ r.limit_price, 0 < p) ∧ (∀ p ∈ r.stop_price, 0 < p)

structure Order where
  id : ℕ
  symbol : String
  side : OrderSide
  type : OrderType
  qty : ℤ
  filled_qty : ℤ
  remaining_qty : ℤ
  limit_price : Option ℚ
  stop_price : Option ℚ
  avg_fill_price : Option ℚ
  tif : TimeInForce
  status : OrderStatus
  created_at : ℤ
  updated_at : ℤ
  deriving DecidableEq, Repr

structure Fill where
  id : ℕ
  order_id : ℕ
  symbol : String
  side : OrderSide
  price : ℚ
  qty : ℤ
  commission : ℚ
  slippage : ℚ
  timestamp : ℤ
  deriving DecidableEq, Repr

structure Position where
  symbol : String
  qty : ℤ
  avg_price : ℚ
  cost_basis : ℚ
  current_price : ℚ
  market_value : ℚ
  unrealized_pnl : ℚ
  realized_pnl : ℚ
  last_updated : ℤ
  deriving DecidableEq, Repr

structure RiskLimits where
  max_leverage : ℚ
  max_position_size_pct : ℚ
  max_order_notional : ℚ
  max_daily_loss_pct : ℚ
  max_symbols : ℤ
  deriving DecidableEq, Repr

/-- Default `RiskLimits()` values from schemas.py. -/
def RiskLimits.default : RiskLimits :=
  { max_leverage := 2
    max_position_size_pct := 1/10
    max_order_notional := 50000
    max_daily_loss_pct := 1/20
    max_symbols := 20 }

/-- A risk violation, carrying the data interpolated into the Python message. -/
inductive RiskViolation
  | noPriceData (symbol : String)
  | orderNotionalExceeded (notional limit : ℚ)
  | positionSizeExceeded (value pct : ℚ)
  | maxSymbolsReached (limit : ℤ)
  | insufficientBuyingPower (buying_power notional : ℚ)
  | leverageExceeded (resulting limit : ℚ)
  deriving DecidableEq, Repr

structure RiskCheck where
  passed : Bool
  violations : List RiskViolation
  current_leverage : ℚ
  resulting_leverage : ℚ
  timestamp : ℤ
  deriving DecidableEq, Repr

structure Account where
  account_id : String
  cash : ℚ
  equity : ℚ
  buying_power : ℚ
  positions_value : ℚ
  unrealized_pnl : ℚ
  realized_pnl : ℚ
  leverage : ℚ
  margin_used : ℚ
  timestamp : ℤ
  deriving DecidableEq, Repr

/-! ## Engine state (`PaperTradingEngine.__init__`) -/

structure Engine where
  account_id : String
  cash : ℚ
  initial_cash : ℚ
  risk_limits : RiskLimits
  tick_size : ℚ
  slippage_k : ℚ
  participation_rate : ℚ
  orders : List (ℕ × Order)
  positions : List (String × Position)
  fills : List Fill
  current_prices : List (String × ℚ)
  current_timestamp : ℤ
  commission_per_share : ℚ
  next_id : ℕ
  deriving DecidableEq, Repr

/-- A fresh engine with the constructor defaults. -/
def Engine.new (initial_cash : ℚ) : Engine :=
  { account_id := "paper_default"
    cash := initial_cash
    initial_cash := initial_cash
    risk_limits := RiskLimits.default
    tick_size := 1/100
    slippage_k := 1/100
    participation_rate := 1/10
    orders := []
    positions := []
    fills := []
    current_prices := []
    current_timestamp := 0
    commission_per_share := 1/1000
    next_id := 0 }

/-! ## Internal helpers (`_calculate_equity`, `_calculate_leverage`,
`_calculate_buying_power`) -/

/-- The mark price used for a position: `self.current_prices.get(p.symbol, p.current_price)`. -/
def markPrice (e : Engine) (p : Position) : ℚ :=
  (alookup e.current_prices p.symbol).getD p.current_price

/-- Python `sum(abs(p.qty) * current_prices.get(p.symbol, p.current_price) ...)` as used by
`_calculate_equity`, `_calculate_leverage`, `_calculate_buying_power`, `get_account`. -/
def positionsValue (e : Engine) : ℚ :=
  (e.positions.map (fun sp => |sp.2.qty| * markPrice e sp.2)).sum

/-- Python `sum(p.unrealized_pnl for p in self.positions.values())`. -/
def unrealizedSum (e : Engine) : ℚ :=
  (e.positions.map (fun sp => sp.2.unrealized_pnl)).sum

/-- Python `sum(p.realized_pnl for p in self.positions.values())`. -/
def realizedSum (e : Engine) : ℚ :=
  (e.positions.map (fun sp => sp.2.realized_pnl)).sum

/-- Engine method `_calculate_equity`. -/
def calculate_equity (e : Engine) : ℚ :=
  e.cash + positionsValue e + unrealizedSum e

/-- Engine method `_calculate_leverage`. -/
def calculate_leverage (e : Engine) : ℚ :=
  if calculate_equity e ≤ 0 then 0 else positionsValue e / calculate_equity e

/-- Engine method `_calculate_buying_power`. -/
def calculate_buying_power (e : Engine) : ℚ :=
  max 0 (calculate_equity e * e.risk_limits.max_leverage - positionsValue e)

/-! ## Risk check (`_risk_check`)

The intermediate values of `_risk_check` are hoisted to top-level definitions so
that the theorems can name them; each mirrors one assignment in the source. -/

/-- Python truthiness fallback `a or b` for an optional price. -/
def pyOr (a : Option ℚ) (b : ℚ) : ℚ :=
  match a with
  | some x => if x = 0 then b else x
  | none => b

/-- Source line `price = order.limit_price or self.current_prices.get(order.symbol, 0)`. -/
def refPrice (e : Engine) (order : OrderCreate) : ℚ :=
  pyOr order.limit_price ((alookup e.current_prices order.symbol).getD 0)

/-- Source line `order_notional = price * order.qty`. -/
def orderNotional (e : Engine) (order : OrderCreate) : ℚ :=
  refPrice e order * order.qty

/-- Source line `current_qty = current_pos.qty if current_pos else 0`. -/
def currentQty (e : Engine) (order : OrderCreate) : ℤ :=
  match alookup e.positions order.symbol with
  | some p => p.qty
  | none => 0

/-- Source line `resulting_qty = current_qty + (order.qty if BUY else -order.qty)`. -/
def resultingQty (e : Engine) (order : OrderCreate) : ℤ :=
  currentQty e order + (if order.side = OrderSide.buy then order.qty else -order.qty)

/-- Source line `resulting_position_value = abs(resulting_qty * price)`. -/
def resultingPositionValue (e : Engine) (order : OrderCreate) : ℚ :=
  |(resultingQty e order : ℚ) * refPrice e order|

/-- The `positions_value` as computed inside `_risk_check` (line 168: the absolute
value is taken of the product, unlike `_calculate_equity`). -/
def riskPositionsValue (e : Engine) : ℚ :=
  (e.positions.map (fun sp => |(sp.2.qty : ℚ) * markPrice e sp.2|)).sum

/-- Source line `resulting_positions_value = positions_value + signed order notional`. -/
def resultingPositionsValue (e : Engine) (order : OrderCreate) : ℚ :=
  riskPositionsValue e +
    (if order.side = OrderSide.buy then orderNotional e order else -(orderNotional e order))

/-- Source line `resulting_leverage = resulting_positions_value / equity if equity > 0 else 0`. -/
def resultingLeverage (e : Engine) (order : OrderCreate) : ℚ :=
  if 0 < calculate_equity e then resultingPositionsValue e order / calculate_equity e else 0

/-- Engine method `_risk_check`. -/
def risk_check (e : Engine) (order : OrderCreate) : RiskCheck :=
  let current_leverage := calculate_leverage e
  let price := refPrice e order
  if price = 0 then
    { passed := false
      violations := [RiskViolation.noPriceData order.symbol]
      current_leverage := current_leverage
      resulting_leverage := current_leverage
      timestamp := e.current_timestamp }
  else
    let order_notional := orderNotional e order
    let equity := calculate_equity e
    let max_position_value := equity * e.risk_limits.max_position_size_pct
    let v1 := if e.risk_limits.max_order_notional < order_notional then
        [RiskViolation.orderNotionalExceeded order_notional e.risk_limits.max_order_notional]
      else []
    let v2 := if max_position_value < resultingPositionValue e order then
        [RiskViolation.positionSizeExceeded (resultingPositionValue e order)
          e.risk_limits.max_position_size_pct]
      else []
    let v3 := if alookup e.positions order.symbol = none ∧
        e.risk_limits.max_symbols ≤ (e.positions.length : ℤ) then
        [RiskViolation.maxSymbolsReached e.risk_limits.max_symbols]
      else []
    let buying_power := calculate_buying_power e
    let v4 := if order.side = OrderSide.buy ∧ buying_power < order_notional then
        [RiskViolation.insufficientBuyingPower buying_power order_notional]
      else []
    let v5 := if e.risk_limits.max_leverage < resultingLeverage e order then
        [RiskViolation.leverageExceeded (resultingLeverage e order) e.risk_limits.max_leverage]
      else []
    let violations := v1 ++ v2 ++ v3 ++ v4 ++ v5
    { passed := violations.isEmpty
      violations := violations
      current_leverage := current_leverage
      resulting_leverage := resultingLeverage e order
      timestamp := e.current_timestamp }

/-! ## Order submission (`submit_order`) -/

/-- Engine method `submit_order`. Returns the new engine state, the accepted
order (if any) and, on rejection, the violations whose messages are joined into
the returned error string. -/
def submit_order (e : Engine) (order_req : OrderCreate) (timestamp : ℤ) :
    Engine × Option Order × Option (List RiskViolation) :=
  let e := { e with current_timestamp := timestamp }
  let check := risk_check e order_req
  if ¬ check.passed then
    (e, none, some check.violations)
  else
    let status := match order_req.type with
      | OrderType.market => OrderStatus.working
      | OrderType.stop => OrderStatus.new
      | OrderType.stopLimit => OrderStatus.new
      | OrderType.limit => OrderStatus.working
    let order : Order :=
      { id := e.next_id
        symbol := order_req.symbol
        side := order_req.side
        type := order_req.type
        qty := order_req.qty
        filled_qty := 0
        remaining_qty := order_req.qty
        limit_price := order_req.limit_price
        stop_price := order_req.stop_price
        avg_fill_price := none
        tif := order_req.tif
        status := status
        created_at := timestamp
        updated_at := timestamp }
    ({ e with orders := aset e.orders order.id order, next_id := e.next_id + 1 },
      some order, none)

/-! ## Fill simulator (`_check_stop_trigger`, `_try_fill_order`,
`_fill_market_order`, `_fill_limit_order`) -/

/-- Python `int(x)`: truncation toward zero. -/
def pyTrunc (x : ℚ) : ℤ :=
  if 0 ≤ x then ⌊x⌋ else ⌈x⌉

/-- Engine method `_check_stop_trigger`. The leading
`if not order.stop_price` treats `None` and `0.0` as falsy. -/
def check_stop_trigger (order : Order) (bar : Bar) : Bool :=
  match order.stop_price with
  | none => false
  | some sp =>
    if sp = 0 then false
    else if order.side = OrderSide.buy then
      decide (sp ≤ bar.high)
    else
      decide (bar.low ≤ sp)

/-- Engine method `_fill_market_order`. The fill id models
`_generate_id()`; the caller advances `next_id`. -/
def fill_market_order (e : Engine) (order : Order) (bar : Bar) : Fill :=
  let base_price := bar.opn
  let volume_ratio :=
    if 0 < bar.volume then
      min ((order.remaining_qty : ℚ) / (bar.volume : ℚ)) e.participation_rate
    else e.participation_rate
  let slippage_dollars := max e.tick_size (e.slippage_k * volume_ratio * base_price)
  let raw_price :=
    if order.side = OrderSide.buy then base_price + slippage_dollars
    else base_price - slippage_dollars
  let fill_price := round2 raw_price
  let commission := (order.remaining_qty : ℚ) * e.commission_per_share
  { id := e.next_id
    order_id := order.id
    symbol := order.symbol
    side := order.side
    price := fill_price
    qty := order.remaining_qty
    commission := commission
    slippage := slippage_dollars * (order.remaining_qty : ℚ)
    timestamp := bar.ts }

/-- Engine method `_fill_limit_order`. The leading
`if not order.limit_price` treats `None` and `0.0` as falsy. -/
def fill_limit_order (e : Engine) (order : Order) (bar : Bar) : Option Fill :=
  match order.limit_price with
  | none => none
  | some limit_price =>
    if limit_price = 0 then none
    else if ¬ (bar.low ≤ limit_price ∧ limit_price ≤ bar.high) then none
    else
      let max_fillable := pyTrunc ((bar.volume : ℚ) * e.participation_rate)
      let fill_qty := min order.remaining_qty max_fillable
      if fill_qty = 0 then none
      else
        let pair :=
          if fill_qty < order.remaining_qty then
            (if order.side = OrderSide.buy then limit_price + e.tick_size
             else limit_price - e.tick_size,
             e.tick_size * (fill_qty : ℚ))
          else (limit_price, (0 : ℚ))
        let fill_price := round2 pair.1
        let commission := (fill_qty : ℚ) * e.commission_per_share
        some
          { id := e.next_id
            order_id := order.id
            symbol := order.symbol
            side := order.side
            price := fill_price
            qty := fill_qty
            commission := commission
            slippage := pair.2
            timestamp := bar.ts }

/-- Engine method `_try_fill_order`. -/
def try_fill_order (e : Engine) (order : Order) (bar : Bar) : Option Fill :=
  if order.type = OrderType.market ∨
      (order.type = OrderType.stop ∧ order.status = OrderStatus.working) then
    some (fill_market_order e order bar)
  else if order.type = OrderType.limit ∨ order.type = OrderType.stopLimit then
    fill_limit_order e order bar
  else none

/-! ## Position ledger (`_update_position`) -/

/-- Engine method `_update_position`. Mirrors the source statement by
statement; in particular quantity is updated first, and the closing branch reads
the not-yet-updated average price. The trailing "remove position if qty = 0" in
the source is a no-op (the `del` is commented out), so zero-quantity positions
stay in the map. -/
def update_position (e : Engine) (fill : Fill) : Engine :=
  match alookup e.positions fill.symbol with
  | none =>
    let position : Position :=
      { symbol := fill.symbol
        qty := if fill.side = OrderSide.buy then fill.qty else -fill.qty
        avg_price := fill.price
        cost_basis := fill.price * (fill.qty : ℚ)
        current_price := fill.price
        market_value := fill.price * (fill.qty : ℚ)
        unrealized_pnl := 0
        realized_pnl := 0
        last_updated := fill.timestamp }
    { e with positions := aset e.positions fill.symbol position }
  | some position =>
    let old_qty := position.qty
    let new_qty := if fill.side = OrderSide.buy then old_qty + fill.qty else old_qty - fill.qty
    let position :=
      if (0 < old_qty ∧ fill.side = OrderSide.buy) ∨
         (old_qty < 0 ∧ fill.side = OrderSide.sell) then
        let total_cost := position.avg_price * |(old_qty : ℚ)| + fill.price * (fill.qty : ℚ)
        let avg_price := if new_qty ≠ 0 then total_cost / |(new_qty : ℚ)| else fill.price
        { position with
          qty := new_qty
          avg_price := avg_price
          cost_basis := avg_price * |(new_qty : ℚ)| }
      else
        let closed_qty := min |old_qty| fill.qty
        let realized := (fill.price - position.avg_price) * (closed_qty : ℚ) *
          (if 0 < old_qty then 1 else -1)
        let realized_pnl := position.realized_pnl + realized
        if new_qty = 0 then
          { position with
            qty := new_qty
            realized_pnl := realized_pnl
            avg_price := 0
            cost_basis := 0 }
        else if |new_qty| < |old_qty| then
          { position with
            qty := new_qty
            realized_pnl := realized_pnl
            cost_basis := position.avg_price * |(new_qty : ℚ)| }
        else
          { position with
            qty := new_qty
            realized_pnl := realized_pnl
            avg_price := fill.price
            cost_basis := fill.price * |(new_qty : ℚ)| }
    let position := { position with
      current_price := fill.price
      market_value := fill.price * |(position.qty : ℚ)|
      unrealized_pnl :=
        if position.qty ≠ 0 then (fill.price - position.avg_price) * (position.qty : ℚ) else 0
      last_updated := fill.timestamp }
    { e with positions := aset e.positions fill.symbol position }

/-! ## Fill processing (`_process_fill`) -/

/-- The order mutation performed at the top of `_process_fill`: accumulate
filled/remaining quantities, quantity-weighted average fill price, status. -/
def updated_order (order : Order) (fill : Fill) : Order :=
  let filled_qty := order.filled_qty + fill.qty
  let remaining_qty := order.remaining_qty - fill.qty
  let avg_fill_price :=
    if 0 < filled_qty then
      ((order.avg_fill_price.getD 0) * ((filled_qty : ℚ) - (fill.qty : ℚ)) +
        fill.price * (fill.qty : ℚ)) / (filled_qty : ℚ)
    else fill.price
  let status := if remaining_qty = 0 then OrderStatus.filled else OrderStatus.partFilled
  { order with
    filled_qty := filled_qty
    remaining_qty := remaining_qty
    avg_fill_price := some avg_fill_price
    status := status
    updated_at := fill.timestamp }

/-- Engine method `_process_fill`: update the order in the registry, the
position, the cash balance, then append the fill to the log. -/
def process_fill (e : Engine) (order : Order) (fill : Fill) : Engine :=
  let e1 := { e with orders := aset e.orders order.id (updated_order order fill) }
  let e2 := update_position e1 fill
  let e3 :=
    if fill.side = OrderSide.buy then
      { e2 with cash := e2.cash - (fill.price * (fill.qty : ℚ) + fill.commission) }
    else
      { e2 with cash := e2.cash + (fill.price * (fill.qty : ℚ) - fill.commission) }
  { e3 with fills := e3.fills ++ [fill] }

/-! ## Bar processing (`process_bar`) -/

/-- One iteration of the `for order in symbol_orders` loop of `process_bar`.
The Python loop iterates over a snapshot list of mutable `Order` objects that
live in the `orders` dict; since each order is visited at most once and an
iteration only mutates its own order, reading the order from the registry at
its turn is equivalent. -/
def process_bar_step (bar : Bar) (acc : Engine × List Fill) (oid : ℕ) : Engine × List Fill :=
  match alookup acc.1.orders oid with
  | none => acc
  | some order =>
    let order :=
      if order.type = OrderType.stop ∨ order.type = OrderType.stopLimit then
        if check_stop_trigger order bar ∧ order.status = OrderStatus.new then
          { order with status := OrderStatus.working, updated_at := bar.ts }
        else order
      else order
    let e := { acc.1 with orders := aset acc.1.orders oid order }
    if order.status = OrderStatus.working then
      match try_fill_order e order bar with
      | some fill =>
        let e := { e with next_id := e.next_id + 1 }
        (process_fill e order fill, acc.2 ++ [fill])
      | none => (e, acc.2)
    else (e, acc.2)

/-- Engine method `process_bar`. -/
def process_bar (e : Engine) (symbol : String) (bar : Bar) : Engine × List Fill :=
  let e := { e with
    current_timestamp := bar.ts
    current_prices := aset e.current_prices symbol bar.close }
  let ids := (e.orders.filter (fun p => p.2.symbol = symbol ∧
      (p.2.status = OrderStatus.new ∨ p.2.status = OrderStatus.working))).map (fun p => p.1)
  ids.foldl (process_bar_step bar) (e, [])

/-! ## Queries and cancellation -/

/-- Engine method `get_account` (pure in the source: it performs no
assignment to engine state). -/
def get_account (e : Engine) : Account :=
  let positions_value := positionsValue e
  let unrealized_pnl := unrealizedSum e
  let realized_pnl := realizedSum e
  let equity := e.cash + positions_value + unrealized_pnl
  let leverage := if 0 < equity then positions_value / equity else 0
  { account_id := e.account_id
    cash := e.cash
    equity := equity
    buying_power := calculate_buying_power e
    positions_value := positions_value
    unrealized_pnl := unrealized_pnl
    realized_pnl := realized_pnl
    leverage := leverage
    margin_used := max 0 (positions_value - e.cash)
    timestamp := e.current_timestamp }

/-- The per-position refresh performed by the loop at the top of
`get_positions`: pull the latest stored mark price, if any. -/
def refreshPosition (prices : List (String × ℚ)) (sp : String × Position) : String × Position :=
  match alookup prices sp.1 with
  | some cp =>
    (sp.1, { sp.2 with
      current_price := cp
      market_value := cp * |(sp.2.qty : ℚ)|
      unrealized_pnl := (cp - sp.2.avg_price) * (sp.2.qty : ℚ) })
  | none => sp

/-- Engine method `get_positions`. The source mutates every position's
mark fields in place before returning the non-zero ones, so the result includes
the updated engine state. -/
def get_positions (e : Engine) : Engine × List Position :=
  let positions := e.positions.map (refreshPosition e.current_prices)
  ({ e with positions := positions },
    (positions.filter (fun sp => sp.2.qty ≠ 0)).map (fun sp => sp.2))

/-- Engine method `get_orders` (pure in the source). -/
def get_orders (e : Engine) (active_only : Bool) : List Order :=
  if active_only then
    (e.orders.filter (fun p => p.2.status = OrderStatus.new ∨
      p.2.status = OrderStatus.working ∨
      p.2.status = OrderStatus.partFilled)).map (fun p => p.2)
  else
    e.orders.map (fun p => p.2)

/-- Engine method `get_fills` (pure in the source). -/
def get_fills (e : Engine) (symbol : Option String) : List Fill :=
  match symbol with
  | some s => e.fills.filter (fun f => f.symbol = s)
  | none => e.fills

/-- Engine method `cancel_order`. -/
def cancel_order (e : Engine) (order_id : ℕ) : Engine × Bool :=
  match alookup e.orders order_id with
  | none => (e, false)
  | some order =>
    if order.status = OrderStatus.new ∨ order.status = OrderStatus.working ∨
        order.status = OrderStatus.partFilled then
      ({ e with orders := (aset e.orders order_id
          { order with status := OrderStatus.canceled, updated_at := e.current_timestamp }) },
        true)
    else (e, false)

/-! ## Basic lemmas about the operations -/

theorem mem_ite_nil {α : Type} {c : Prop} [Decidable c] {x y : α} :
    (x ∈ if c then [y] else []) ↔ c ∧ x = y := by
  split <;> simp_all

theorem alookup_map {κ α β : Type} [DecidableEq κ] (g : κ × α → β) (m : List (κ × α)) (k : κ) :
    alookup (m.map (fun p => (p.1, g p))) k = (alookup m k).map (fun v => g (k, v)) := by
  induction m with
  | nil => rfl
  | cons p rest ih =>
    obtain ⟨a, b⟩ := p
    by_cases h : a = k
    · subst h
      simp [alookup]
    · simp [alookup, h, ih]

theorem round2_cent (n : ℤ) : round2 ((n : ℚ) / 100) = (n : ℚ) / 100 := by
  unfold round2
  rw [div_mul_cancel₀ _ (by norm_num : (100 : ℚ) ≠ 0), roundHE_intCast]

theorem update_position_orders (e : Engine) (fill : Fill) :
    (update_position e fill).orders = e.orders := by
  cases h : alookup e.positions fill.symbol <;> simp [update_position, h]

theorem update_position_cash (e : Engine) (fill : Fill) :
    (update_position e fill).cash = e.cash := by
  cases h : alookup e.positions fill.symbol <;> simp [update_position, h]

theorem update_position_current_prices (e : Engine) (fill : Fill) :
    (update_position e fill).current_prices = e.current_prices := by
  cases h : alookup e.positions fill.symbol <;> simp [update_position, h]

theorem update_position_positions_congr (e e' : Engine) (fill : Fill)
    (h : e.positions = e'.positions) :
    (update_position e fill).positions = (update_position e' fill).positions := by
  unfold update_position
  rw [h]
  cases halt : alookup e'.positions fill.symbol <;> simp [h]

theorem process_fill_orders (e : Engine) (order : Order) (fill : Fill) :
    (process_fill e order fill).orders =
      aset e.orders order.id (updated_order order fill) := by
  unfold process_fill
  by_cases h : fill.side = OrderSide.buy <;> simp [h, update_position_orders]

theorem process_fill_cash (e : Engine) (order : Order) (fill : Fill) :
    (process_fill e order fill).cash =
      if fill.side = OrderSide.buy then e.cash - (fill.price * (fill.qty : ℚ) + fill.commission)
      else e.cash + (fill.price * (fill.qty : ℚ) - fill.commission) := by
  unfold process_fill
  by_cases h : fill.side = OrderSide.buy <;> simp [h, update_position_cash]

theorem process_fill_positions (e : Engine) (order : Order) (fill : Fill) :
    (process_fill e order fill).positions = (update_position e fill).positions := by
  unfold process_fill
  by_cases h : fill.side = OrderSide.buy <;>
    simp [h, update_position_positions_congr
      { e with orders := aset e.orders order.id (updated_order order fill) } e fill rfl]

theorem process_fill_current_prices (e : Engine) (order : Order) (fill : Fill) :
    (process_fill e order fill).current_prices = e.current_prices := by
  unfold process_fill
  by_cases h : fill.side = OrderSide.buy <;> simp [h, update_position_current_prices]

theorem process_bar_step_current_prices (bar : Bar) (acc : Engine × List Fill) (oid : ℕ) :
    ((process_bar_step bar acc oid).1).current_prices = acc.1.current_prices := by
  unfold process_bar_step
  cases h : alookup acc.1.orders oid with
  | none => rfl
  | some order =>
    dsimp only
    repeat' split
    all_goals simp [process_fill_current_prices]

theorem foldl_process_bar_step_current_prices (bar : Bar) (ids : List ℕ)
    (acc : Engine × List Fill) :
    ((ids.foldl (process_bar_step bar) acc).1).current_prices = acc.1.current_prices := by
  induction ids generalizing acc with
  | nil => rfl
  | cons i rest ih => rw [List.foldl_cons, ih, process_bar_step_current_prices]

theorem risk_check_passed_iff (e : Engine) (r : OrderCreate) :
    (risk_check e r).passed = true ↔ (risk_check e r).violations = [] := by
  unfold risk_check
  by_cases h : refPrice e r = 0
  · simp [h]
  · simp [h, List.isEmpty_iff]

/-! ## Concrete sample values for witnesses and counterexamples -/

def sampleEngine : Engine := Engine.new 100000

def sampleMarketBuy : Order :=
  { id := 0
    symbol := "XYZ"
    side := OrderSide.buy
    type := OrderType.market
    qty := 1
    filled_qty := 0
    remaining_qty := 1
    limit_price := none
    stop_price := none
    avg_fill_price := none
    tif := TimeInForce.day
    status := OrderStatus.working
    created_at := 0
    updated_at := 0 }

/-! ## C9 -/

/-- C9: on a zero-volume bar the market-order fill computation is total: the
division `remaining_qty / bar.volume` is guarded by `bar.volume > 0`, the
volume ratio falls back to the participation rate, a full fill for the whole
remaining quantity is still produced, and the per-share slippage equals
`max(tick_size, slippage_k * participation_rate * bar.open)`. -/
theorem C9_zero_volume_market_fill (e : Engine) (order : Order) (bar : Bar)
    (hvol : bar.volume = 0) :
    (fill_market_order e order bar).qty = order.remaining_qty ∧
    (fill_market_order e order bar).slippage =
      max e.tick_size (e.slippage_k * e.participation_rate * bar.opn) *
        (order.remaining_qty : ℚ) ∧
    (fill_market_order e order bar).price =
      round2 (if order.side = OrderSide.buy then
          bar.opn + max e.tick_size (e.slippage_k * e.participation_rate * bar.opn)
        else
          bar.opn - max e.tick_size (e.slippage_k * e.participation_rate * bar.opn)) := by
  have hv : ¬ (0 < bar.volume) := by omega
  refine ⟨rfl, ?_, ?_⟩ <;> simp [fill_market_order, hv]

def barW9 : Bar := { ts := 10, opn := 50, high := 51, low := 49, close := 50, volume := 0 }

theorem C9_witness :
    (fill_market_order sampleEngine sampleMarketBuy barW9).qty =
      sampleMarketBuy.remaining_qty ∧
    (fill_market_order sampleEngine sampleMarketBuy barW9).slippage =
      max sampleEngine.tick_size
        (sampleEngine.slippage_k * sampleEngine.participation_rate * barW9.opn) *
        (sampleMarketBuy.remaining_qty : ℚ) ∧
    (fill_market_order sampleEngine sampleMarketBuy barW9).price =
      round2 (if sampleMarketBuy.side = OrderSide.buy then
          barW9.opn + max sampleEngine.tick_size
            (sampleEngine.slippage_k * sampleEngine.participation_rate * barW9.opn)
        else
          barW9.opn - max sampleEngine.tick_size
            (sampleEngine.slippage_k * sampleEngine.participation_rate * barW9.opn)) :=
  C9_zero_volume_market_fill sampleEngine sampleMarketBuy barW9 rfl

/-! ## C10 -/

/-- C10: a fully closed position (quantity 0) stays in the position map after
`_update_position` (the entry survives every fill, carrying the new signed
quantity, zero included), and such a symbol still counts as held in
`_risk_check`: an order on a symbol present in the map never raises the
max-symbols violation, while for a genuinely new symbol the violation is
raised exactly when the map's size (zero-quantity entries included) has
reached `max_symbols`. -/
theorem C10_zero_qty_position_counts (e : Engine) (fill : Fill) (req : OrderCreate)
    (l : ℤ) (p : Position) :
    (alookup e.positions fill.symbol = some p →
      ∃ p', alookup (update_position e fill).positions fill.symbol = some p' ∧
        p'.qty = (if fill.side = OrderSide.buy then p.qty + fill.qty else p.qty - fill.qty)) ∧
    (alookup e.positions req.symbol ≠ none →
      RiskViolation.maxSymbolsReached l ∉ (risk_check e req).violations) ∧
    (refPrice e req ≠ 0 → alookup e.positions req.symbol = none →
      (RiskViolation.maxSymbolsReached e.risk_limits.max_symbols ∈
          (risk_check e req).violations ↔
        e.risk_limits.max_symbols ≤ (e.positions.length : ℤ))) := by
  refine ⟨?_, ?_, ?_⟩
  · intro hpos
    simp only [update_position, hpos]
    refine ⟨_, alookup_aset_self _ _ _, ?_⟩
    dsimp only
    repeat' split
    all_goals simp_all
  · intro hsome
    by_cases hp : refPrice e req = 0
    · simp [risk_check, hp]
    · simp only [risk_check, hp, if_neg (by exact hp)]
      simp [mem_ite_nil, hsome]
  · intro hp hnone
    simp only [risk_check, if_neg hp]
    simp [mem_ite_nil, hnone]

def posW10 : Position :=
  { symbol := "XYZ"
    qty := 0
    avg_price := 0
    cost_basis := 0
    current_price := 50
    market_value := 0
    unrealized_pnl := 0
    realized_pnl := 125
    last_updated := 4 }

def egW10 : Engine :=
  { sampleEngine with
    positions := [("XYZ", posW10)]
    current_prices := [("XYZ", 50)] }

def fillW10 : Fill :=
  { id := 3
    order_id := 1
    symbol := "XYZ"
    side := OrderSide.buy
    price := 50
    qty := 2
    commission := 1/500
    slippage := 0
    timestamp := 8 }

def reqW10 : OrderCreate :=
  { symbol := "XYZ"
    side := OrderSide.buy
    type := OrderType.market
    qty := 2
    limit_price := none
    stop_price := none
    tif := TimeInForce.day }

theorem C10_witness :
    (∃ p', alookup (update_position egW10 fillW10).positions fillW10.symbol = some p' ∧
      p'.qty = (if fillW10.side = OrderSide.buy then posW10.qty + fillW10.qty
        else posW10.qty - fillW10.qty)) ∧
    RiskViolation.maxSymbolsReached 20 ∉ (risk_check egW10 reqW10).violations :=
  ⟨(C10_zero_qty_position_counts egW10 fillW10 reqW10 20 posW10).1 (by decide),
    (C10_zero_qty_position_counts egW10 fillW10 reqW10 20 posW10).2.1 (by decide)⟩

/-! ## C5 -/

/-- Bar with an open price of 50.004, not a whole number of cents. -/
def barC5 : Bar :=
  { ts := 10, opn := 50004/1000, high := 51, low := 49, close := 505/10, volume := 1000000 }

/-- C5 counterexample: with `open = 50.004` and a small BUY market order the
slippage is exactly one tick (0.01), the raw fill price is 50.014, but
`round(.., 2)` brings it back to 50.01, which is strictly below
`open + tick_size = 50.014`: the claimed inequality fails after rounding. -/
theorem C5_counterexample :
    sampleMarketBuy.side = OrderSide.buy ∧
    (fill_market_order sampleEngine sampleMarketBuy barC5).price = 5001/100 ∧
    (fill_market_order sampleEngine sampleMarketBuy barC5).price <
      barC5.opn + sampleEngine.tick_size := by
  have h : (fill_market_order sampleEngine sampleMarketBuy barC5).price = 5001/100 := by
    norm_num [fill_market_order, sampleEngine, sampleMarketBuy, barC5, Engine.new,
      RiskLimits.default, round2, roundHE, min_def, max_def]
  refine ⟨rfl, h, ?_⟩
  rw [h]
  norm_num [barC5, sampleEngine, Engine.new]

/-- C5 (amended): when the bar's open price is a whole number of cents (and the
tick size is the reference model's 0.01), every market-order (or triggered
stop) fill differs from the bar open by at least one tick in the unfavorable
direction even after rounding to 2 decimals: `price ≥ open + tick` for BUY and
`price ≤ open - tick` for SELL. -/
theorem C5_market_fill_one_tick (e : Engine) (order : Order) (bar : Bar)
    (htick : e.tick_size = 1/100) (hcent : ∃ n : ℤ, bar.opn = (n : ℚ) / 100) :
    (order.side = OrderSide.buy →
      bar.opn + e.tick_size ≤ (fill_market_order e order bar).price) ∧
    (order.side = OrderSide.sell →
      (fill_market_order e order bar).price ≤ bar.opn - e.tick_size) := by
  obtain ⟨n, hn⟩ := hcent
  set volume_ratio :=
    if 0 < bar.volume then
      min ((order.remaining_qty : ℚ) / (bar.volume : ℚ)) e.participation_rate
    else e.participation_rate with hvr
  set s := max e.tick_size (e.slippage_k * volume_ratio * bar.opn) with hs
  have hs1 : 1/100 ≤ s := htick ▸ le_max_left _ _
  constructor
  · intro hside
    have hprice : (fill_market_order e order bar).price = round2 (bar.opn + s) := by
      simp [fill_market_order, hside, hs, hvr]
    rw [hprice, htick, hn]
    have h1 : ((n + 1 : ℤ) : ℚ) ≤ ((n : ℚ) / 100 + s) * 100 := by
      push_cast
      have : ((n : ℚ) / 100) * 100 = (n : ℚ) := by ring
      nlinarith
    have h2 : ((n + 1 : ℤ) : ℚ) ≤ (roundHE (((n : ℚ) / 100 + s) * 100) : ℚ) := by
      exact_mod_cast roundHE_ge_of_int_le h1
    unfold round2
    rw [div_add_div_same] at *
    push_cast at h2 ⊢
    linarith [(div_le_div_iff_of_pos_right (by norm_num : (0:ℚ) < 100)).mpr h2]
  · intro hside
    have hbuy : ¬ (order.side = OrderSide.buy) := by
      rw [hside]
      intro hcon
      exact OrderSide.noConfusion hcon
    have hprice : (fill_market_order e order bar).price = round2 (bar.opn - s) := by
      simp [fill_market_order, hbuy, hs, hvr]
    rw [hprice, htick, hn]
    have h1 : ((n : ℚ) / 100 - s) * 100 ≤ ((n - 1 : ℤ) : ℚ) := by
      push_cast
      have : ((n : ℚ) / 100) * 100 = (n : ℚ) := by ring
      nlinarith
    have h2 : (roundHE (((n : ℚ) / 100 - s) * 100) : ℚ) ≤ ((n - 1 : ℤ) : ℚ) := by
      exact_mod_cast roundHE_le_of_le_int h1
    unfold round2
    push_cast at h2 ⊢
    linarith [(div_le_div_iff_of_pos_right (by norm_num : (0:ℚ) < 100)).mpr h2]

def barW5 : Bar :=
  { ts := 10, opn := 50, high := 51, low := 495/10, close := 505/10, volume := 1000000 }

theorem C5_witness :
    (sampleMarketBuy.side = OrderSide.buy →
      barW5.opn + sampleEngine.tick_size ≤
        (fill_market_order sampleEngine sampleMarketBuy barW5).price) ∧
    (sampleMarketBuy.side = OrderSide.sell →
      (fill_market_order sampleEngine sampleMarketBuy barW5).price ≤
        barW5.opn - sampleEngine.tick_size) :=
  C5_market_fill_one_tick sampleEngine sampleMarketBuy barW5 rfl ⟨5000, by norm_num [barW5]⟩

/-! ## C3 -/

/-- BUY limit order at the bar's high that can only partially fill. -/
def ordC3p : Order :=
  { sampleMarketBuy with
    type := OrderType.limit
    limit_price := some 51
    remaining_qty := 20
    qty := 20 }

def barC3p : Bar :=
  { ts := 10, opn := 50, high := 51, low := 49, close := 505/10, volume := 100 }

/-- BUY limit order at 50.004 (not a whole number of cents) that fully fills. -/
def ordC3f : Order :=
  { sampleMarketBuy with
    type := OrderType.limit
    limit_price := some (12501/250)
    remaining_qty := 5
    qty := 5 }

def barC3f : Bar :=
  { ts := 10, opn := 50, high := 51, low := 49, close := 505/10, volume := 1000 }

/-- C3 counterexample. Two failures of the claim as stated: (1) a partial fill
of a BUY limit order at `limit = bar.high` executes at `limit + tick = 51.01`,
strictly above `bar.high`, so the fill price can lie outside
`[bar.low, bar.high]`; (2) a full fill at limit 50.004 is rounded to 2 decimals
and executes at 50.00, not exactly at the limit price. -/
theorem C3_counterexample :
    ((fill_limit_order sampleEngine ordC3p barC3p).map Fill.price = some (5101/100) ∧
      barC3p.high < 5101/100) ∧
    ((fill_limit_order sampleEngine ordC3f barC3f).map Fill.qty =
        some ordC3f.remaining_qty ∧
      (fill_limit_order sampleEngine ordC3f barC3f).map Fill.price = some 50 ∧
      ordC3f.limit_price = some (12501/250) ∧ (50 : ℚ) ≠ 12501/250) := by
  refine ⟨⟨?_, by norm_num [barC3p]⟩, ⟨?_, ?_, rfl, by norm_num⟩⟩
  · norm_num [fill_limit_order, sampleEngine, ordC3p, barC3p, sampleMarketBuy, Engine.new,
      pyTrunc, round2, roundHE]
  · norm_num [fill_limit_order, sampleEngine, ordC3f, barC3f, sampleMarketBuy, Engine.new,
      pyTrunc, round2, roundHE]
  · norm_num [fill_limit_order, sampleEngine, ordC3f, barC3f, sampleMarketBuy, Engine.new,
      pyTrunc, round2, roundHE]

/-- C3 (amended): for a limit (or triggered stop-limit) order whose limit price
is a whole number of cents, with the reference tick size 0.01: a fill is
produced only when `bar.low ≤ limit ≤ bar.high`; when the fill covers the full
remaining quantity it executes at exactly the limit price with zero recorded
slippage; and the fill price always lies within the bar range widened by one
tick, `[bar.low - tick, bar.high + tick]` (partial fills sit one tick outside
the limit, in the unfavorable direction). -/
theorem C3_limit_fill_range (e : Engine) (order : Order) (bar : Bar) (fill : Fill) (L : ℚ)
    (htick : e.tick_size = 1/100) (hlp : order.limit_price = some L)
    (hcent : ∃ n : ℤ, L = (n : ℚ) / 100)
    (hfill : fill_limit_order e order bar = some fill) :
    (bar.low ≤ L ∧ L ≤ bar.high) ∧
    (fill.qty = order.remaining_qty → fill.price = L ∧ fill.slippage = 0) ∧
    (bar.low - e.tick_size ≤ fill.price ∧ fill.price ≤ bar.high + e.tick_size) := by
  obtain ⟨n, hn⟩ := hcent
  simp only [fill_limit_order, hlp] at hfill
  split at hfill
  · exact absurd hfill (by simp)
  split at hfill
  · exact absurd hfill (by simp)
  split at hfill
  · exact absurd hfill (by simp)
  rename_i h0 hr hq
  rw [not_not] at hr
  injection hfill with hf
  subst hf
  refine ⟨hr, ?_, ?_⟩
  · intro hfq
    simp only at hfq
    have hnotlt : ¬ (min order.remaining_qty (pyTrunc ((bar.volume : ℚ) *
        e.participation_rate)) < order.remaining_qty) := by omega
    simp only [if_neg hnotlt]
    rw [hn, round2_cent]
    simp
  · by_cases hlt : min order.remaining_qty (pyTrunc ((bar.volume : ℚ) *
        e.participation_rate)) < order.remaining_qty
    · simp only [if_pos hlt]
      by_cases hside : order.side = OrderSide.buy
      · simp only [if_pos hside]
        have : L + e.tick_size = ((n + 1 : ℤ) : ℚ) / 100 := by
          rw [hn, htick]
          push_cast
          ring
        rw [this, round2_cent, ← this]
        constructor
        · linarith [hr.1, (by rw [htick]; norm_num : (0:ℚ) < e.tick_size)]
        · linarith [hr.2]
      · simp only [if_neg hside]
        have : L - e.tick_size = ((n - 1 : ℤ) : ℚ) / 100 := by
          rw [hn, htick]
          push_cast
          ring
        rw [this, round2_cent, ← this]
        constructor
        · linarith [hr.1]
        · linarith [hr.2, (by rw [htick]; norm_num : (0:ℚ) < e.tick_size)]
    · simp only [if_neg hlt]
      rw [hn, round2_cent, ← hn]
      constructor
      · linarith [hr.1, (by rw [htick]; norm_num : (0:ℚ) < e.tick_size)]
      · linarith [hr.2, (by rw [htick]; norm_num : (0:ℚ) < e.tick_size)]

/-- SELL limit order at 52.00 against a bar that covers it (spec Scenario B). -/
def ordW3 : Order :=
  { sampleMarketBuy with
    side := OrderSide.sell
    type := OrderType.limit
    limit_price := some 52
    remaining_qty := 500
    qty := 500 }

def barW3 : Bar :=
  { ts := 10, opn := 52, high := 525/10, low := 515/10, close := 52, volume := 10000 }

def fillW3 : Fill :=
  { id := 0
    order_id := 0
    symbol := "XYZ"
    side := OrderSide.sell
    price := 52
    qty := 500
    commission := 500 * (1/1000)
    slippage := 0
    timestamp := 10 }

theorem C3_witness :
    (barW3.low ≤ 52 ∧ (52 : ℚ) ≤ barW3.high) ∧
    (fillW3.qty = ordW3.remaining_qty → fillW3.price = 52 ∧ fillW3.slippage = 0) ∧
    (barW3.low - sampleEngine.tick_size ≤ fillW3.price ∧
      fillW3.price ≤ barW3.high + sampleEngine.tick_size) :=
  C3_limit_fill_range sampleEngine ordW3 barW3 fillW3 52 rfl rfl
    ⟨5200, by norm_num⟩
    (by norm_num [fill_limit_order, sampleEngine, ordW3, barW3, sampleMarketBuy, Engine.new,
      pyTrunc, round2, roundHE, fillW3])

/-! ## C2 -/

/-- A market order request on a symbol with no price data: the risk check
rejects it. -/
def reqC2 : OrderCreate :=
  { symbol := "XYZ"
    side := OrderSide.buy
    type := OrderType.market
    qty := 10
    limit_price := none
    stop_price := none
    tif := TimeInForce.day }

/-- C2 counterexample: a rejected `submit_order` does return no order, but the
engine state is not exactly as before the call: `current_timestamp` is set to
the submission timestamp before the risk check runs (line 72 of the source),
so the engine after a rejected call differs from the engine before it. -/
theorem C2_counterexample :
    (submit_order sampleEngine reqC2 5).2.1 = none ∧
    (submit_order sampleEngine reqC2 5).1 ≠ sampleEngine := by
  have h2 : (risk_check { sampleEngine with current_timestamp := 5 } reqC2).passed = false := by
    simp [risk_check, refPrice, pyOr, alookup, sampleEngine, Engine.new, reqC2]
  constructor
  · simp [submit_order, h2]
  · intro h
    have h1 : (submit_order sampleEngine reqC2 5).1.current_timestamp = 5 := by
      unfold submit_order
      split <;> rfl
    rw [h] at h1
    simp [sampleEngine, Engine.new] at h1

/-- C2 (amended): when the risk check fails, `submit_order` returns no order
together with the violations whose messages are joined into the error string,
and leaves every engine field — order registry, positions, fills, cash, current
prices — unchanged except `current_timestamp`, which records the submission
timestamp (it is assigned before the risk check). The violation list of a
failed check is never empty. -/
theorem C2_rejected_submit (e : Engine) (req : OrderCreate) (ts : ℤ)
    (hfail : (risk_check { e with current_timestamp := ts } req).passed = false) :
    submit_order e req ts =
      ({ e with current_timestamp := ts }, none,
        some (risk_check { e with current_timestamp := ts } req).violations) ∧
    (risk_check { e with current_timestamp := ts } req).violations ≠ [] := by
  constructor
  · simp [submit_order, hfail]
  · intro hemp
    have hp := (risk_check_passed_iff { e with current_timestamp := ts } req).mpr hemp
    rw [hfail] at hp
    exact Bool.noConfusion hp

theorem C2_witness :
    submit_order sampleEngine reqC2 5 =
      ({ sampleEngine with current_timestamp := 5 }, none,
        some (risk_check { sampleEngine with current_timestamp := 5 } reqC2).violations) ∧
    (risk_check { sampleEngine with current_timestamp := 5 } reqC2).violations ≠ [] :=
  C2_rejected_submit sampleEngine reqC2 5
    (by simp [risk_check, refPrice, pyOr, alookup, sampleEngine, Engine.new, reqC2])

/-! ## C4 -/

theorem refreshPosition_eta (prices : List (String × ℚ)) (sp : String × Position) :
    refreshPosition prices sp = (sp.1, (refreshPosition prices sp).2) := by
  unfold refreshPosition
  cases h : alookup prices sp.1 <;> rfl

def posC4 : Position :=
  { symbol := "A"
    qty := 3
    avg_price := 8
    cost_basis := 24
    current_price := 10
    market_value := 30
    unrealized_pnl := 6
    realized_pnl := 0
    last_updated := 1 }

def egC4 : Engine :=
  { sampleEngine with
    positions := [("A", posC4)]
    current_prices := [("A", 15)] }

def barC4 : Bar :=
  { ts := 20, opn := 19, high := 21, low := 18, close := 20, volume := 500 }

/-- C4 counterexample: with a held position on "A" and no orders,
`process_bar("A", bar)` leaves the position record untouched — its mark price
stays at 10 and is not refreshed from `bar.close = 20`. Only the engine-level
`current_prices` map is updated; position fields are refreshed lazily by
`get_positions` (and from the fill price inside `_update_position`). -/
theorem C4_counterexample :
    alookup (process_bar egC4 "A" barC4).1.positions "A" = some posC4 ∧
    posC4.current_price ≠ barC4.close := by
  constructor
  · simp [process_bar, egC4, sampleEngine, Engine.new, alookup]
  · norm_num [posC4, barC4]

/-- C4 (amended): every `process_bar(symbol, bar)` call sets the engine's
stored mark price for the symbol to `bar.close`, fill or no fill; a position's
own mark price, market value and unrealized P&L are refreshed from the stored
mark price by `get_positions`, and set from the fill price whenever a fill is
applied to the position — but `process_bar` itself does not rewrite the
position record. -/
theorem C4_mark_price_refresh (e : Engine) (symbol : String) (bar : Bar) (sym : String)
    (p : Position) (cp : ℚ) (fill : Fill) :
    (alookup (process_bar e symbol bar).1.current_prices symbol = some bar.close) ∧
    (alookup e.positions sym = some p → alookup e.current_prices sym = some cp →
      ∃ p', alookup (get_positions e).1.positions sym = some p' ∧
        p'.current_price = cp ∧ p'.market_value = cp * |(p.qty : ℚ)| ∧
        p'.unrealized_pnl = (cp - p.avg_price) * (p.qty : ℚ)) ∧
    (alookup e.positions fill.symbol = some p →
      ∃ q, alookup (update_position e fill).positions fill.symbol = some q ∧
        q.current_price = fill.price ∧ q.last_updated = fill.timestamp) := by
  refine ⟨?_, ?_, ?_⟩
  · simp only [process_bar]
    rw [foldl_process_bar_step_current_prices]
    exact alookup_aset_self _ _ _
  · intro hp hcp
    have hmap : (get_positions e).1.positions =
        e.positions.map (fun q => (q.1, (refreshPosition e.current_prices q).2)) := by
      show e.positions.map (refreshPosition e.current_prices) = _
      exact List.map_congr_left (fun q _ => refreshPosition_eta e.current_prices q)
    rw [hmap, alookup_map, hp]
    refine ⟨_, rfl, ?_⟩
    simp [refreshPosition, hcp]
  · intro hp
    simp only [update_position, hp]
    exact ⟨_, alookup_aset_self _ _ _, rfl, rfl⟩

def fillW4 : Fill :=
  { id := 9
    order_id := 2
    symbol := "A"
    side := OrderSide.buy
    price := 16
    qty := 1
    commission := 1/1000
    slippage := 0
    timestamp := 21 }

theorem C4_witness :
    (alookup (process_bar egC4 "A" barC4).1.current_prices "A" = some barC4.close) ∧
    (∃ p', alookup (get_positions egC4).1.positions "A" = some p' ∧
      p'.current_price = 15 ∧ p'.market_value = 15 * |(posC4.qty : ℚ)| ∧
      p'.unrealized_pnl = (15 - posC4.avg_price) * (posC4.qty : ℚ)) ∧
    (∃ q, alookup (update_position egC4 fillW4).positions fillW4.symbol = some q ∧
      q.current_price = fillW4.price ∧ q.last_updated = fillW4.timestamp) :=
  ⟨(C4_mark_price_refresh egC4 "A" barC4 "A" posC4 15 fillW4).1,
    (C4_mark_price_refresh egC4 "A" barC4 "A" posC4 15 fillW4).2.1 (by decide) (by decide),
    (C4_mark_price_refresh egC4 "A" barC4 "A" posC4 15 fillW4).2.2 (by decide)⟩

/-! ## C6 -/

/-- C6: every processed fill moves cash by exactly
`-(price*qty + commission)` for a BUY and `+(price*qty - commission)` for a
SELL; and every fill opposite in direction to an existing position books a
realized P&L delta of exactly
`(fill_price - avg_price_before) * closed_qty * sign(old_qty)` with
`closed_qty = min(|old_qty|, fill.qty)`. -/
theorem C6_fill_cash_and_realized_pnl :
    (∀ (e : Engine) (order : Order) (fill : Fill),
      (process_fill e order fill).cash =
        if fill.side = OrderSide.buy then
          e.cash - (fill.price * (fill.qty : ℚ) + fill.commission)
        else e.cash + (fill.price * (fill.qty : ℚ) - fill.commission)) ∧
    (∀ (e : Engine) (order : Order) (fill : Fill) (p : Position),
      alookup e.positions fill.symbol = some p →
      ((0 < p.qty ∧ fill.side = OrderSide.sell) ∨
        (p.qty < 0 ∧ fill.side = OrderSide.buy)) →
      ∃ p', alookup (process_fill e order fill).positions fill.symbol = some p' ∧
        p'.realized_pnl = p.realized_pnl +
          (fill.price - p.avg_price) * ((min |p.qty| fill.qty : ℤ) : ℚ) *
            (if 0 < p.qty then 1 else -1)) := by
  constructor
  · exact process_fill_cash
  · intro e order fill p hp hopp
    rw [process_fill_positions]
    have hnadd : ¬ ((0 < p.qty ∧ fill.side = OrderSide.buy) ∨
        (p.qty < 0 ∧ fill.side = OrderSide.sell)) := by
      rcases hopp with ⟨hq, hs⟩ | ⟨hq, hs⟩ <;> rw [hs] <;> simp <;> omega
    simp only [update_position, hp]
    rw [if_neg hnadd]
    refine ⟨_, alookup_aset_self _ _ _, ?_⟩
    dsimp only
    repeat' split
    all_goals rfl

def posW6 : Position :=
  { symbol := "XYZ"
    qty := 100
    avg_price := 50
    cost_basis := 5000
    current_price := 50
    market_value := 5000
    unrealized_pnl := 0
    realized_pnl := 0
    last_updated := 0 }

def egW6 : Engine := { sampleEngine with positions := [("XYZ", posW6)] }

def ordW6 : Order :=
  { sampleMarketBuy with side := OrderSide.sell, remaining_qty := 40, qty := 40 }

def fillW6 : Fill :=
  { id := 5
    order_id := 0
    symbol := "XYZ"
    side := OrderSide.sell
    price := 55
    qty := 40
    commission := 1/25
    slippage := 0
    timestamp := 9 }

theorem C6_witness :
    ((process_fill egW6 ordW6 fillW6).cash =
      if fillW6.side = OrderSide.buy then
        egW6.cash - (fillW6.price * (fillW6.qty : ℚ) + fillW6.commission)
      else egW6.cash + (fillW6.price * (fillW6.qty : ℚ) - fillW6.commission)) ∧
    (∃ p', alookup (process_fill egW6 ordW6 fillW6).positions fillW6.symbol = some p' ∧
      p'.realized_pnl = posW6.realized_pnl +
        (fillW6.price - posW6.avg_price) * ((min |posW6.qty| fillW6.qty : ℤ) : ℚ) *
          (if 0 < posW6.qty then 1 else -1)) :=
  ⟨C6_fill_cash_and_realized_pnl.1 egW6 ordW6 fillW6,
    C6_fill_cash_and_realized_pnl.2 egW6 ordW6 fillW6 posW6 (by decide)
      (Or.inl ⟨by decide, rfl⟩)⟩

/-! ## C7 -/

/-- C7: `_risk_check` is a pure function of the engine state and the request
(it is modelled here as such because the source method performs no writes). If
the reference price — the order's limit price, else the latest stored mark
price — is missing (0), the check fails immediately with the single
"no price data" violation and both leverage fields equal to the current
leverage. Otherwise the five validations are evaluated independently, each
contributing its violation exactly when its condition holds, and `passed`
holds exactly when the violation list is empty. -/
theorem C7_risk_check_behavior (e : Engine) (req : OrderCreate) :
    (refPrice e req = 0 →
      risk_check e req =
        { passed := false
          violations := [RiskViolation.noPriceData req.symbol]
          current_leverage := calculate_leverage e
          resulting_leverage := calculate_leverage e
          timestamp := e.current_timestamp }) ∧
    (refPrice e req ≠ 0 →
      ((RiskViolation.orderNotionalExceeded (orderNotional e req)
          e.risk_limits.max_order_notional ∈ (risk_check e req).violations ↔
        e.risk_limits.max_order_notional < orderNotional e req) ∧
      (RiskViolation.positionSizeExceeded (resultingPositionValue e req)
          e.risk_limits.max_position_size_pct ∈ (risk_check e req).violations ↔
        calculate_equity e * e.risk_limits.max_position_size_pct <
          resultingPositionValue e req) ∧
      (RiskViolation.maxSymbolsReached e.risk_limits.max_symbols ∈
          (risk_check e req).violations ↔
        (alookup e.positions req.symbol = none ∧
          e.risk_limits.max_symbols ≤ (e.positions.length : ℤ))) ∧
      (RiskViolation.insufficientBuyingPower (calculate_buying_power e)
          (orderNotional e req) ∈ (risk_check e req).violations ↔
        (req.side = OrderSide.buy ∧ calculate_buying_power e < orderNotional e req)) ∧
      (RiskViolation.leverageExceeded (resultingLeverage e req)
          e.risk_limits.max_leverage ∈ (risk_check e req).violations ↔
        e.risk_limits.max_leverage < resultingLeverage e req) ∧
      (∀ s, RiskViolation.noPriceData s ∉ (risk_check e req).violations))) ∧
    ((risk_check e req).passed = true ↔ (risk_check e req).violations = []) := by
  refine ⟨?_, ?_, risk_check_passed_iff e req⟩
  · intro h0
    simp [risk_check, h0]
  · intro h0
    simp only [risk_check, if_neg h0]
    refine ⟨?_, ?_, ?_, ?_, ?_, ?_⟩ <;>
      simp [mem_ite_nil, List.mem_append]

theorem C7_witness :
    risk_check sampleEngine reqC2 =
      { passed := false
        violations := [RiskViolation.noPriceData reqC2.symbol]
        current_leverage := calculate_leverage sampleEngine
        resulting_leverage := calculate_leverage sampleEngine
        timestamp := sampleEngine.current_timestamp } ∧
    (RiskViolation.maxSymbolsReached egW10.risk_limits.max_symbols ∈
        (risk_check egW10 reqW10).violations ↔
      (alookup egW10.positions reqW10.symbol = none ∧
        egW10.risk_limits.max_symbols ≤ (egW10.positions.length : ℤ))) ∧
    ((risk_check egW10 reqW10).passed = true ↔ (risk_check egW10 reqW10).violations = []) :=
  ⟨(C7_risk_check_behavior sampleEngine reqC2).1 (by decide),
    ((C7_risk_check_behavior egW10 reqW10).2.1 (by decide)).2.2.1,
    (C7_risk_check_behavior egW10 reqW10).2.2⟩

/-! ## C8 -/

theorem refreshPosition_qty (prices : List (String × ℚ)) (sp : String × Position) :
    (refreshPosition prices sp).2.qty = sp.2.qty := by
  unfold refreshPosition
  cases h : alookup prices sp.1 <;> rfl

theorem refreshPosition_realized (prices : List (String × ℚ)) (sp : String × Position) :
    (refreshPosition prices sp).2.realized_pnl = sp.2.realized_pnl := by
  unfold refreshPosition
  cases h : alookup prices sp.1 <;> rfl

theorem refreshPosition_avg (prices : List (String × ℚ)) (sp : String × Position) :
    (refreshPosition prices sp).2.avg_price = sp.2.avg_price := by
  unfold refreshPosition
  cases h : alookup prices sp.1 <;> rfl

/-- C8 counterexample: `get_positions` is not read-only. On an engine holding a
position marked at 10 while the stored mark price is 15, the call rewrites the
position's mark fields in place, so the engine state after the call differs
from the state before it. -/
theorem C8_counterexample : (get_positions egC4).1 ≠ egC4 := by
  intro h
  have h2 := congrArg (fun x => (alookup x.positions "A").map Position.current_price) h
  simp only [get_positions] at h2
  rw [show egC4.positions.map (refreshPosition egC4.current_prices) =
      egC4.positions.map (fun q => (q.1, (refreshPosition egC4.current_prices q).2)) from
    List.map_congr_left (fun q _ => refreshPosition_eta egC4.current_prices q),
    alookup_map] at h2
  simp [egC4, posC4, sampleEngine, Engine.new, alookup, refreshPosition] at h2

/-- C8 (amended): `get_account`, `get_orders` and `get_fills` are read-only
projections over current state (they are pure functions of the engine), but
`get_positions` first refreshes every position's mark price, market value and
unrealized P&L from the stored mark prices — a state write — and then returns
exactly the positions with non-zero quantity; zero-quantity positions are
retained in the internal position map with their quantity, realized P&L and
average price intact. -/
theorem C8_query_projections (e : Engine) (sym : String) (p : Position) (s : String) :
    (∀ q ∈ (get_positions e).2, q.qty ≠ 0) ∧
    (alookup e.positions sym = some p →
      ∃ p', alookup (get_positions e).1.positions sym = some p' ∧
        p'.qty = p.qty ∧ p'.realized_pnl = p.realized_pnl ∧ p'.avg_price = p.avg_price) ∧
    (alookup e.positions sym = some p → p.qty ≠ 0 →
      (refreshPosition e.current_prices (sym, p)).2 ∈ (get_positions e).2) ∧
    (get_fills e none = e.fills) ∧
    (∀ f ∈ get_fills e (some s), f ∈ e.fills ∧ f.symbol = s) ∧
    (∀ o ∈ get_orders e false, ∃ k, (k, o) ∈ e.orders) ∧
    ((get_account e).cash = e.cash ∧ (get_account e).timestamp = e.current_timestamp) := by
  refine ⟨?_, ?_, ?_, rfl, ?_, ?_, rfl, rfl⟩
  · intro q hq
    simp only [get_positions, List.mem_map, List.mem_filter] at hq
    obtain ⟨sp, ⟨hmem, hne⟩, rfl⟩ := hq
    simpa using hne
  · intro hp
    have hmap : (get_positions e).1.positions =
        e.positions.map (fun q => (q.1, (refreshPosition e.current_prices q).2)) := by
      show e.positions.map (refreshPosition e.current_prices) = _
      exact List.map_congr_left (fun q _ => refreshPosition_eta e.current_prices q)
    rw [hmap, alookup_map, hp]
    exact ⟨_, rfl, refreshPosition_qty _ _, refreshPosition_realized _ _,
      refreshPosition_avg _ _⟩
  · intro hp hqty
    have hmem : (sym, p) ∈ e.positions := alookup_mem hp
    simp only [get_positions, List.mem_map]
    refine ⟨refreshPosition e.current_prices (sym, p), ?_, rfl⟩
    rw [List.mem_filter]
    refine ⟨List.mem_map_of_mem _ hmem, ?_⟩
    simp [refreshPosition_qty, hqty]
  · intro f hf
    simp only [get_fills, List.mem_filter] at hf
    exact ⟨hf.1, by simpa using hf.2⟩
  · intro o ho
    simp only [get_orders, Bool.false_eq_true, if_false, List.mem_map] at ho
    obtain ⟨⟨k, o'⟩, hm, rfl⟩ := ho
    exact ⟨k, hm⟩

theorem C8_witness :
    (∀ q ∈ (get_positions egC4).2, q.qty ≠ 0) ∧
    (∃ p', alookup (get_positions egC4).1.positions "A" = some p' ∧
      p'.qty = posC4.qty ∧ p'.realized_pnl = posC4.realized_pnl ∧
      p'.avg_price = posC4.avg_price) ∧
    (refreshPosition egC4.current_prices ("A", posC4)).2 ∈ (get_positions egC4).2 ∧
    get_fills egC4 none = egC4.fills :=
  ⟨(C8_query_projections egC4 "A" posC4 "A").1,
    (C8_query_projections egC4 "A" posC4 "A").2.1 (by decide),
    (C8_query_projections egC4 "A" posC4 "A").2.2.1 (by decide) (by decide),
    (C8_query_projections egC4 "A" posC4 "A").2.2.2.1⟩

/-! ## C1 -/

/-- The per-order quantity invariant:
`filled_qty + remaining_qty == qty` and `remaining_qty >= 0`. -/
def goodOrder (o : Order) : Prop :=
  o.filled_qty + o.remaining_qty = o.qty ∧ 0 ≤ o.remaining_qty

instance : DecidablePred goodOrder :=
  fun _ => inferInstanceAs (Decidable (_ ∧ _))

/-- The invariant over the whole order registry. -/
def ordersInv (e : Engine) : Prop :=
  ∀ p ∈ e.orders, goodOrder p.2

instance : DecidablePred ordersInv :=
  fun _ => List.decidableBAll _ _

theorem try_fill_order_qty_le (e : Engine) (o : Order) (bar : Bar) (fill : Fill)
    (hf : try_fill_order e o bar = some fill) : fill.qty ≤ o.remaining_qty := by
  unfold try_fill_order at hf
  split at hf
  · injection hf with h
    rw [← h]
    exact le_refl _
  split at hf
  · simp only [fill_limit_order] at hf
    cases hl : o.limit_price with
    | none => rw [hl] at hf; exact absurd hf (by simp)
    | some L =>
      rw [hl] at hf
      dsimp only at hf
      split at hf
      · exact absurd hf (by simp)
      split at hf
      · exact absurd hf (by simp)
      split at hf
      · exact absurd hf (by simp)
      injection hf with h
      rw [← h]
      exact min_le_left _ _
  · exact absurd hf (by simp)

theorem process_fill_ordersInv (e : Engine) (order : Order) (fill : Fill)
    (hinv : ordersInv e) (hgood : goodOrder order)
    (hqty : fill.qty ≤ order.remaining_qty) :
    ordersInv (process_fill e order fill) := by
  intro q hq
  rw [process_fill_orders] at hq
  rcases mem_aset hq with h | h
  · rw [h]
    obtain ⟨hg1, hg2⟩ := hgood
    constructor
    · show order.filled_qty + fill.qty + (order.remaining_qty - fill.qty) = order.qty
      omega
    · show (0 : ℤ) ≤ order.remaining_qty - fill.qty
      omega
  · exact hinv q h

theorem process_bar_step_ordersInv (bar : Bar) (acc : Engine × List Fill) (oid : ℕ)
    (hinv : ordersInv acc.1) : ordersInv (process_bar_step bar acc oid).1 := by
  unfold process_bar_step
  cases h : alookup acc.1.orders oid with
  | none => exact hinv
  | some order =>
    have hgood : goodOrder order := by
      have hm := alookup_mem h
      exact hinv _ hm
    dsimp only
    set order' := (if order.type = OrderType.stop ∨ order.type = OrderType.stopLimit then
        if check_stop_trigger order bar = true ∧ order.status = OrderStatus.new then
          { order with status := OrderStatus.working, updated_at := bar.ts }
        else order
      else order) with horder'
    have hgood' : goodOrder order' := by
      rw [horder']
      repeat' split
      all_goals exact hgood
    have hinv' : ordersInv { acc.1 with orders := aset acc.1.orders oid order' } := by
      intro q hq
      rcases mem_aset hq with h1 | h1
      · rw [h1]; exact hgood'
      · exact hinv q h1
    split
    · split
      · rename_i fill htf
        exact process_fill_ordersInv _ _ _ hinv' hgood'
          (try_fill_order_qty_le _ _ _ _ htf)
      · exact hinv'
    · exact hinv'

theorem foldl_process_bar_step_ordersInv (bar : Bar) (ids : List ℕ)
    (acc : Engine × List Fill) (hinv : ordersInv acc.1) :
    ordersInv ((ids.foldl (process_bar_step bar) acc).1) := by
  induction ids generalizing acc with
  | nil => exact hinv
  | cons i rest ih => exact ih _ (process_bar_step_ordersInv bar acc i hinv)

/-- C1: for every order in the registry, `filled_qty + remaining_qty == qty`
and `remaining_qty ≥ 0` is preserved by every public operation
(`submit_order` with a schema-valid positive quantity, `process_bar`,
`cancel_order`); and every fill produced by the fill simulator and handed to
`_process_fill` satisfies `fill.qty ≤ order.remaining_qty` at the moment of
the fill, so each fill event preserves the invariant. -/
theorem C1_order_qty_invariant :
    (∀ (e : Engine) (req : OrderCreate) (ts : ℤ), ordersInv e → 0 < req.qty →
      ordersInv (submit_order e req ts).1) ∧
    (∀ (e : Engine) (symbol : String) (bar : Bar), ordersInv e →
      ordersInv (process_bar e symbol bar).1) ∧
    (∀ (e : Engine) (oid : ℕ), ordersInv e → ordersInv (cancel_order e oid).1) ∧
    (∀ (e : Engine) (o : Order) (bar : Bar) (fill : Fill),
      try_fill_order e o bar = some fill → fill.qty ≤ o.remaining_qty) := by
  refine ⟨?_, ?_, ?_, fun e o bar fill hf => try_fill_order_qty_le e o bar fill hf⟩
  · intro e req ts hinv hq
    unfold submit_order
    dsimp only
    repeat' split
    all_goals
      first
      | exact hinv
      | (intro q hq2
         rcases mem_aset hq2 with h | h
         · rw [h]
           refine ⟨?_, ?_⟩
           · show (0 : ℤ) + req.qty = req.qty
             omega
           · show (0 : ℤ) ≤ req.qty
             omega
         · exact hinv q h)
  · intro e symbol bar hinv
    unfold process_bar
    exact foldl_process_bar_step_ordersInv bar _ _ hinv
  · intro e oid hinv
    unfold cancel_order
    cases h : alookup e.orders oid with
    | none => exact hinv
    | some order =>
      have hgood : goodOrder order := hinv _ (alookup_mem h)
      dsimp only
      split
      · intro q hq
        rcases mem_aset hq with h1 | h1
        · rw [h1]; exact hgood
        · exact hinv q h1
      · exact hinv

def reqW1 : OrderCreate :=
  { symbol := "XYZ"
    side := OrderSide.buy
    type := OrderType.limit
    qty := 7
    limit_price := some 50
    stop_price := none
    tif := TimeInForce.day }

theorem C1_witness :
    ordersInv (submit_order egW10 reqW1 5).1 ∧
    ordersInv (process_bar egW10 "XYZ" barW5).1 ∧
    ordersInv (cancel_order egW10 0).1 ∧
    ((try_fill_order sampleEngine ordC3p barC3p).map Fill.qty = some 10 ∧
      (10 : ℤ) ≤ ordC3p.remaining_qty) :=
  ⟨C1_order_qty_invariant.1 egW10 reqW1 5 (by decide) (by decide),
    C1_order_qty_invariant.2.1 egW10 "XYZ" barW5 (by decide),
    C1_order_qty_invariant.2.2.1 egW10 0 (by decide),
    by
      have hq : (fill_limit_order sampleEngine ordC3p barC3p).map Fill.qty = some 10 := by
        norm_num [fill_limit_order, sampleEngine, ordC3p, barC3p, sampleMarketBuy,
          Engine.new, pyTrunc, round2, roundHE]
      have ht : try_fill_order sampleEngine ordC3p barC3p =
          fill_limit_order sampleEngine ordC3p barC3p := by
        unfold try_fill_order
        rw [if_neg (by decide), if_pos (by decide)]
      exact ⟨ht ▸ hq, by decide⟩⟩

end MarketSim
